import Mathlib

/-!
Shallow embedding of the ascend leaderboard SaaS (TypeScript sources) and
proofs about its specified behaviour.

Scores are float64 in the source; the claims under study only use ordering,
addition and comparison of scores, so scores are modelled as rationals.
Redis sorted sets are modelled as association lists from member to score;
Redis hashes as records of optional fields.
-/

namespace Ascend

/-- Update mode of a leaderboard, `updateMode ∈ {replace, increment, best}`. -/
inductive UpdateMode where
  | replace
  | increment
  | best
deriving DecidableEq, Repr

/-- Sort order of a leaderboard, `sortOrder ∈ {asc, desc}`. -/
inductive SortOrder where
  | asc
  | desc
deriving DecidableEq, Repr

/--
The metadata hash `l:meta:{tenantId}:{projectId}:{leaderboardId}` as read by
`redis.hgetall` in `apps/scores-service/src/routes/scores.ts`. A missing hash
reads as the record with every field `none` (hgetall returns `{}`).
`ttlDays` is stored as a string and parsed with `parseInt`; it is modelled
already parsed.
-/
structure MetaHash where
  name : Option String := none
  projectId : Option String := none
  tenantId : Option String := none
  createdAt : Option String := none
  ttlDays : Option Nat := none
  updateMode : Option UpdateMode := none
  sortOrder : Option SortOrder := none
deriving DecidableEq, Repr

/-- The wholly-missing metadata hash: `hgetall` on an absent key. -/
def emptyMeta : MetaHash := {}

/-- `metadata?.ttlDays ? parseInt(metadata.ttlDays) : 0` in scores.ts. -/
def effTtlDays (m : MetaHash) : Nat := m.ttlDays.getD 0

/-- `(metadata?.updateMode || 'replace')` in scores.ts. -/
def effUpdateMode (m : MetaHash) : UpdateMode := m.updateMode.getD .replace

/-- `(metadata?.sortOrder || 'desc')` in scores.ts. -/
def effSortOrder (m : MetaHash) : SortOrder := m.sortOrder.getD .desc

/-- A Redis sorted set, as an association list member ↦ score. -/
abbrev ZSet : Type := List (String × Rat)

/-- `ZSCORE key member`: the score of a member, if present. -/
def zscore (z : ZSet) (member : String) : Option Rat :=
  (z.find? (fun e => e.1 == member)).map (fun e => e.2)

/-- `ZADD key score member`: set the member's score (insert if absent). -/
def zadd (z : ZSet) (score : Rat) (member : String) : ZSet :=
  match z with
  | [] => [(member, score)]
  | e :: es => if e.1 == member then (member, score) :: es else e :: zadd es score member

/-- `ZINCRBY key score member`: add to the member's score (0 if absent). -/
def zincrby (z : ZSet) (score : Rat) (member : String) : ZSet :=
  match zscore z member with
  | some current => zadd z (current + score) member
  | none => zadd z score member

/--
The order in which `ZREVRANGE` lists entries: score strictly descending.
The order of entries with equal scores is irrelevant to every claim proved
here, so the model sorts stably by score only.
-/
def revOrder (a b : String × Rat) : Prop := b.2 ≤ a.2

instance : DecidableRel revOrder := fun a b => by unfold revOrder; infer_instance

instance : IsTotal (String × Rat) revOrder :=
  ⟨fun a b => (le_total b.2 a.2).imp (fun h => h) (fun h => h)⟩

instance : IsTrans (String × Rat) revOrder :=
  ⟨fun _ _ _ h1 h2 => le_trans h2 h1⟩

/-- The ascending order used by `ZRANGE`. -/
def fwdOrder (a b : String × Rat) : Prop := a.2 ≤ b.2

instance : DecidableRel fwdOrder := fun a b => by unfold fwdOrder; infer_instance

instance : IsTotal (String × Rat) fwdOrder :=
  ⟨fun a b => (le_total a.2 b.2).imp (fun h => h) (fun h => h)⟩

instance : IsTrans (String × Rat) fwdOrder :=
  ⟨fun _ _ _ h1 h2 => le_trans h1 h2⟩

/-- The sorted set listed in descending score order (as `ZREVRANGE 0 -1`). -/
def sortDesc (z : ZSet) : List (String × Rat) := List.insertionSort revOrder z

/-- The sorted set listed in ascending score order (as `ZRANGE 0 -1`). -/
def sortAsc (z : ZSet) : List (String × Rat) := List.insertionSort fwdOrder z

/-- `ZREVRANK key member`: 0-based position in descending order. -/
def zrevrank (z : ZSet) (member : String) : Option Nat :=
  (sortDesc z).findIdx? (fun e => e.1 == member)

/-- `ZRANK key member`: 0-based position in ascending order. -/
def zrank (z : ZSet) (member : String) : Option Nat :=
  (sortAsc z).findIdx? (fun e => e.1 == member)

/--
Result of the single `POST /update` handler in
`apps/scores-service/src/routes/scores.ts`: the sorted set after the write,
the TTL (re)armed on the score key, the `score.updated` event payload fields
that depend on the update, and the HTTP response fields.
-/
structure UpdateResult where
  zset : ZSet
  ttlArmed : Option Nat
  publishedScore : Rat
  publishedIncrement : Bool
  responseScore : Rat
  responseRank : Option Nat
deriving DecidableEq

/--
The single-score update handler (`POST /update` in scores.ts), from reading
the metadata hash through publishing the `score.updated` event and building
the response.
-/
def updateScore (meta : MetaHash) (z : ZSet) (userId : String) (score : Rat)
    (increment : Bool) : UpdateResult :=
  let ttlDays := effTtlDays meta
  let updateMode := effUpdateMode meta
  let sortOrder := effSortOrder meta
  let z1 :=
    if updateMode = .increment ∨ increment = true then
      zincrby z score userId
    else if updateMode = .best then
      match zscore z userId with
      | none => zadd z score userId
      | some current =>
        if (if sortOrder = .desc then current < score else score < current) then
          zadd z score userId
        else z
    else
      zadd z score userId
  let ttlArmed := if ttlDays > 0 then some (ttlDays * 24 * 60 * 60) else none
  let finalScore := (zscore z1 userId).getD 0
  let rank := if sortOrder = .desc then zrevrank z1 userId else zrank z1 userId
  { zset := z1
    ttlArmed := ttlArmed
    publishedScore := finalScore
    publishedIncrement := increment
    responseScore := finalScore
    responseRank := rank.map (fun r => r + 1) }

/-- After `ZADD`, the member holds exactly the written score. -/
theorem zscore_zadd (z : ZSet) (s : Rat) (m : String) :
    zscore (zadd z s m) m = some s := by
  induction z with
  | nil => simp [zadd, zscore]
  | cons e es ih =>
    by_cases h : e.1 == m
    · simp [zadd, h, zscore]
    · simp only [zadd, h, if_false, Bool.false_eq_true]
      simpa [zscore, List.find?, h] using ih

/-- After `ZINCRBY`, the member holds its previous score (0 if absent) plus the delta. -/
theorem zscore_zincrby (z : ZSet) (s : Rat) (m : String) :
    zscore (zincrby z s m) m = some ((zscore z m).getD 0 + s) := by
  unfold zincrby
  cases h : zscore z m with
  | none => simp [zscore_zadd]
  | some c => simp [zscore_zadd]

/-- The stored score a single update leaves for the member, as the claim states it. -/
def claimedStoredScore (meta : MetaHash) (z : ZSet) (u : String) (s : Rat)
    (inc : Bool) : Option Rat :=
  match (if inc then UpdateMode.increment else effUpdateMode meta) with
  | .increment => some ((zscore z u).getD 0 + s)
  | .best =>
    match zscore z u with
    | none => some s
    | some c =>
      if (effSortOrder meta = .desc ∧ c < s) ∨ (effSortOrder meta = .asc ∧ s < c) then
        some s
      else some c
  | .replace => some s

/--
C1: for every UpdateScore request, a missing metadata hash reads as the
defaults `{updateMode=replace, sortOrder=desc, ttlDays=0}`; the effective
mode is the metadata updateMode unless the request sets `increment=true`,
which forces increment mode; increment mode adds the submitted score to the
stored score, best mode sets the score when the member is absent and
otherwise iff `(sortOrder=desc ∧ score > current) ∨ (sortOrder=asc ∧ score <
current)`, and replace mode sets it unconditionally.
-/
theorem claim_c1_update_modes :
    (effUpdateMode emptyMeta = .replace ∧ effSortOrder emptyMeta = .desc ∧
      effTtlDays emptyMeta = 0) ∧
    ∀ (meta : MetaHash) (z : ZSet) (u : String) (s : Rat) (inc : Bool),
      zscore (updateScore meta z u s inc).zset u = claimedStoredScore meta z u s inc := by
  refine ⟨⟨rfl, rfl, rfl⟩, ?_⟩
  intro meta z u s inc
  cases inc with
  | true =>
    simp [updateScore, claimedStoredScore, zscore_zincrby]
  | false =>
    cases hm : effUpdateMode meta with
    | replace =>
      simp [updateScore, claimedStoredScore, hm, zscore_zadd]
    | increment =>
      simp [updateScore, claimedStoredScore, hm, zscore_zincrby]
    | best =>
      cases hcur : zscore z u with
      | none =>
        simp [updateScore, claimedStoredScore, hm, hcur, zscore_zadd]
      | some c =>
        cases hso : effSortOrder meta with
        | asc =>
          by_cases hlt : s < c
          · simp [updateScore, claimedStoredScore, hm, hcur, hso, hlt, zscore_zadd]
          · simp [updateScore, claimedStoredScore, hm, hcur, hso, hlt]
        | desc =>
          by_cases hlt : c < s
          · simp [updateScore, claimedStoredScore, hm, hcur, hso, hlt, zscore_zadd]
          · simp [updateScore, claimedStoredScore, hm, hcur, hso, hlt]

/--
C4 counterexample: on the single-update path, an increment update of 5 on a
stored score of 10 publishes a `score.updated` event whose score field is 15
(the post-update absolute read back from the sorted set), not the submitted 5.
-/
theorem claim_c4_counterexample :
    (updateScore emptyMeta [("u", (10 : Rat))] "u" 5 true).publishedScore = 15 ∧
    (updateScore emptyMeta [("u", (10 : Rat))] "u" 5 true).publishedScore ≠ 5 := by
  have h : (updateScore emptyMeta [("u", (10 : Rat))] "u" 5 true).publishedScore = 15 := by
    simp [updateScore, zincrby, zscore, zadd, effUpdateMode, effSortOrder, effTtlDays,
      emptyMeta, List.find?]
    norm_num
  refine ⟨h, ?_⟩
  rw [h]
  norm_num

/--
C4 (amended): for every successful single UpdateScore request, the published
`score.updated` event carries the post-update absolute score read back from
the sorted set (`finalScore`), together with the submitted increment flag; in
particular under effective increment mode it carries old + submitted, not the
submitted score.
-/
theorem claim_c4_amended_publishes_final_score :
    ∀ (meta : MetaHash) (z : ZSet) (u : String) (s : Rat) (inc : Bool),
      (updateScore meta z u s inc).publishedIncrement = inc ∧
      (updateScore meta z u s inc).publishedScore =
        (zscore (updateScore meta z u s inc).zset u).getD 0 ∧
      (effUpdateMode meta = .increment ∨ inc = true →
        (updateScore meta z u s inc).publishedScore = (zscore z u).getD 0 + s) := by
  intro meta z u s inc
  refine ⟨rfl, rfl, ?_⟩
  intro h
  have hz : (updateScore meta z u s inc).zset = zincrby z s u := by
    rcases h with h | h
    · simp [updateScore, h]
    · simp [updateScore, h]
  show (zscore (updateScore meta z u s inc).zset u).getD 0 = _
  rw [hz, zscore_zincrby]
  rfl

/--
C4 witness: the amended publish theorem applied to an increment update on an
empty sorted set.
-/
theorem claim_c4_witness :
    (effUpdateMode emptyMeta = .increment ∨ true = true) ∧
    (updateScore emptyMeta [] "u" 5 true).publishedScore =
      (zscore ([] : ZSet) "u").getD 0 + 5 :=
  ⟨Or.inr rfl,
    (claim_c4_amended_publishes_final_score emptyMeta [] "u" 5 true).2.2 (Or.inr rfl)⟩

/--
The `leaderboard.created` event payload, from
`packages/nats-client/src/events.ts` (`LeaderboardCreatedEvent`).
-/
structure LeaderboardCreatedEvent where
  type : String
  leaderboardId : String
  projectId : String
  tenantId : String
  name : String
  sortOrder : SortOrder
  updateMode : UpdateMode
  ttlDays : Option Nat := none
  timestamp : String
deriving DecidableEq, Repr

/-- A Redis `HSET key fields` write together with any TTL armed on the key. -/
structure HsetWrite where
  key : String
  fields : List (String × String)
  ttl : Option Nat
deriving DecidableEq, Repr

/--
The Worker's `leaderboard.created` handler
(`apps/worker-service/src/handlers/leaderboard-created.ts`): one HSET on the
metadata key, and no EXPIRE. `data.ttlDays?.toString() || '0'` serialises a
missing ttlDays as "0" (and 0 also as "0", since "0" is truthy in JS).
-/
def leaderboardCreatedHandler (e : LeaderboardCreatedEvent) : HsetWrite :=
  { key := "l:meta:" ++ e.tenantId ++ ":" ++ e.projectId ++ ":" ++ e.leaderboardId
    fields :=
      [("name", e.name), ("projectId", e.projectId), ("tenantId", e.tenantId),
        ("createdAt", e.timestamp), ("ttlDays", (e.ttlDays.map toString).getD "0")]
    ttl := none }

/--
C5 counterexample: for a concrete `leaderboard.created` event (carrying
updateMode=best, sortOrder=asc), the hash written by the Worker contains
neither an `updateMode` nor a `sortOrder` field, contradicting the claimed
field set; the no-TTL part of the claim does hold here.
-/
theorem claim_c5_counterexample :
    ("updateMode" ∉ (leaderboardCreatedHandler
        ⟨"leaderboard.created", "lb1", "p1", "t1", "Best Asc", .asc, .best, some 7,
          "2024-01-01T00:00:00Z"⟩).fields.map Prod.fst) ∧
    ("sortOrder" ∉ (leaderboardCreatedHandler
        ⟨"leaderboard.created", "lb1", "p1", "t1", "Best Asc", .asc, .best, some 7,
          "2024-01-01T00:00:00Z"⟩).fields.map Prod.fst) ∧
    (leaderboardCreatedHandler
        ⟨"leaderboard.created", "lb1", "p1", "t1", "Best Asc", .asc, .best, some 7,
          "2024-01-01T00:00:00Z"⟩).ttl = none := by
  refine ⟨?_, ?_, rfl⟩ <;> decide

/--
C5 (amended): for every `leaderboard.created` event it handles, the Worker
writes the metadata hash `l:meta:{tenantId}:{projectId}:{leaderboardId}` with
exactly the fields `{name, projectId, tenantId, createdAt, ttlDays}` (the
event's updateMode and sortOrder are not written), and never sets a TTL on
that hash.
-/
theorem claim_c5_amended_metadata_fields :
    ∀ e : LeaderboardCreatedEvent,
      (leaderboardCreatedHandler e).key =
        "l:meta:" ++ e.tenantId ++ ":" ++ e.projectId ++ ":" ++ e.leaderboardId ∧
      (leaderboardCreatedHandler e).fields.map Prod.fst =
        ["name", "projectId", "tenantId", "createdAt", "ttlDays"] ∧
      (leaderboardCreatedHandler e).ttl = none := by
  intro e
  exact ⟨rfl, rfl, rfl⟩

/-- The body returned by the auth service's `POST /validate`. -/
structure ValidationResponse where
  valid : Bool
  tenantId : Option String := none
  projectId : Option String := none
  planType : Option String := none
deriving DecidableEq, Repr

/-- Outcome of the gateway's fetch to the auth service. -/
inductive AuthServiceResult where
  | httpError
  | ok (v : ValidationResponse)
deriving DecidableEq, Repr

/-- `const cacheKey = ` the string `auth:` followed by the plaintext key, in the gateway auth middleware. -/
def authCacheKey (apiKey : String) : String := "auth:" ++ apiKey

/-- `const CACHE_TTL = 300` in the gateway auth middleware. -/
def CACHE_TTL : Nat := 300

/-- A `SETEX key ttl value` issued against the shared cache. -/
structure CacheSetex where
  key : String
  ttlSecs : Nat
  value : ValidationResponse
deriving DecidableEq, Repr

/--
The cache write performed by `authMiddleware`: nothing on a cache hit; on a
miss, nothing when the auth service responds non-OK or with `valid:false`
(both return 401 before the SETEX), and a SETEX of the validation JSON for
`CACHE_TTL` seconds when the validation is positive.
-/
def authMiddlewareCacheWrite (cached : Option ValidationResponse)
    (svc : AuthServiceResult) (apiKey : String) : Option CacheSetex :=
  match cached with
  | some _ => none
  | none =>
    match svc with
    | .httpError => none
    | .ok v => if v.valid then some ⟨authCacheKey apiKey, CACHE_TTL, v⟩ else none

/--
C6 counterexample: for the plaintext key "k", the positive validation result
is cached under "auth:k" — the plaintext itself — which cannot be of the
claimed form `auth:` followed by the 16-character sha256 hash prefix, since no
16-character suffix produces this key.
-/
theorem claim_c6_counterexample :
    (authMiddlewareCacheWrite none (.ok ⟨true, some "t1", some "p1", some "free"⟩) "k" =
      some ⟨"auth:k", 300, ⟨true, some "t1", some "p1", some "free"⟩⟩) ∧
    ¬ ∃ s : String, s.length = 16 ∧ "auth:k" = "auth:" ++ s := by
  refine ⟨rfl, ?_⟩
  rintro ⟨s, hlen, heq⟩
  have h6 : ("auth:k").length = 6 := by decide
  have h21 : ("auth:" ++ s).length = 21 := by
    rw [String.length_append, hlen]
    decide
  rw [heq, h21] at h6
  exact absurd h6 (by decide)

/--
C6 (amended): for every gateway request that misses the auth cache, a positive
API-key validation result is cached in the shared cache under the key `auth:`
followed by the plaintext key itself, as JSON with TTL `CACHE_TTL = 300 ≤ 300`
seconds; a negative validation result (non-OK response or `valid:false`) is
never cached, and no write happens on a cache hit.
-/
theorem claim_c6_amended_auth_cache :
    CACHE_TTL ≤ 300 ∧
    (∀ (k : String) (v : ValidationResponse),
      authMiddlewareCacheWrite none (.ok v) k =
        if v.valid then some ⟨authCacheKey k, CACHE_TTL, v⟩ else none) ∧
    (∀ (k : String) (v : ValidationResponse), v.valid = false →
      authMiddlewareCacheWrite none (.ok v) k = none) ∧
    (∀ k : String, authMiddlewareCacheWrite none .httpError k = none) ∧
    (∀ (k : String) (c : ValidationResponse) (svc : AuthServiceResult),
      authMiddlewareCacheWrite (some c) svc k = none) := by
  refine ⟨by decide, fun k v => rfl, ?_, fun k => rfl, fun k c svc => rfl⟩
  intro k v hv
  simp [authMiddlewareCacheWrite, hv]

/--
C6 witness: the amended auth-cache theorem applied to a negative validation
result, which is not cached.
-/
theorem claim_c6_witness :
    ((⟨false, none, none, none⟩ : ValidationResponse).valid = false) ∧
    authMiddlewareCacheWrite none (.ok ⟨false, none, none, none⟩) "k" = none :=
  ⟨rfl, claim_c6_amended_auth_cache.2.2.1 "k" ⟨false, none, none, none⟩ rfl⟩

/-- Subscription status, `status ∈ {active, cancelled, past_due}`. -/
inductive SubStatus where
  | active
  | cancelled
  | pastDue
deriving DecidableEq, Repr

/-- A row of the `subscriptions` table (the fields the create route touches). -/
structure Subscription where
  id : String
  tenantId : String
  planType : String
  status : SubStatus
  cancelAtPeriodEnd : Bool := false
deriving DecidableEq, Repr

/--
`POST /` in the billing subscriptions route: if the tenant already has an
active subscription (`SELECT ... WHERE tenant_id = ? AND status = 'active'
LIMIT 1` finds a row), reply 400 and insert nothing; otherwise insert an
active row and reply 201. Returns the HTTP status and the table after the
request.
-/
def createSubscription (subs : List Subscription) (tenantId planType newId : String) :
    Nat × List Subscription :=
  match subs.find? (fun s => s.tenantId == tenantId && s.status == SubStatus.active) with
  | some _ => (400, subs)
  | none => (201, subs ++ [⟨newId, tenantId, planType, .active, false⟩])

/--
C7 counterexample: with tenant "t1" already holding an active subscription,
creating another subscription for "t1" fails with HTTP status 400, not the
claimed Conflict mapping 409.
-/
theorem claim_c7_counterexample :
    (createSubscription [⟨"s1", "t1", "free", .active, false⟩] "t1" "pro" "s2").1 = 400 ∧
    (createSubscription [⟨"s1", "t1", "free", .active, false⟩] "t1" "pro" "s2").1 ≠ 409 := by
  refine ⟨rfl, ?_⟩
  decide

/--
C7 (amended): for every tenant that already has an active subscription,
creating another subscription for that tenant fails with HTTP status 400
("Tenant already has an active subscription"), and no new subscription row is
created, preserving at most one active subscription per tenant.
-/
theorem claim_c7_amended_duplicate_subscription (subs : List Subscription)
    (tenantId planType newId : String)
    (h : ∃ s ∈ subs, s.tenantId = tenantId ∧ s.status = SubStatus.active) :
    (createSubscription subs tenantId planType newId).1 = 400 ∧
    (createSubscription subs tenantId planType newId).2 = subs := by
  have hfind : (subs.find?
      (fun s => s.tenantId == tenantId && s.status == SubStatus.active)).isSome := by
    rw [List.find?_isSome]
    rcases h with ⟨s, hs, h1, h2⟩
    exact ⟨s, hs, by simp [h1, h2]⟩
  unfold createSubscription
  cases hf : subs.find? (fun s => s.tenantId == tenantId && s.status == SubStatus.active) with
  | none => rw [hf] at hfind; simp at hfind
  | some s => exact ⟨rfl, rfl⟩

/--
C7 witness: the duplicate-subscription theorem applied to a concrete table
holding an active subscription for tenant "t1".
-/
theorem claim_c7_witness :
    (∃ s ∈ [Subscription.mk "s1" "t1" "free" .active false],
      s.tenantId = "t1" ∧ s.status = SubStatus.active) ∧
    (createSubscription [⟨"s1", "t1", "free", .active, false⟩] "t1" "pro" "s9").1 = 400 ∧
    (createSubscription [⟨"s1", "t1", "free", .active, false⟩] "t1" "pro" "s9").2 =
      [⟨"s1", "t1", "free", .active, false⟩] :=
  ⟨by decide, claim_c7_amended_duplicate_subscription _ "t1" "pro" "s9" (by decide)⟩

/-- The `GET /:id/rank/:userId` response fields the claim is about. -/
structure RankResponse where
  status : Nat
  rank : Option Nat
  score : Option Rat
deriving DecidableEq

/--
The rank lookup handler in `apps/scores-service/src/routes/leaderboards.ts`:
ZSCORE and ZREVRANK the member; if either is null, reply 200 with null rank
and score; otherwise reply 200 with the 1-based rank and the score.
-/
def rankHandler (z : ZSet) (userId : String) : RankResponse :=
  match zscore z userId, zrevrank z userId with
  | some sc, some r => { status := 200, rank := some (r + 1), score := some sc }
  | _, _ => { status := 200, rank := none, score := none }

/-- A member outside the sorted set has no score. -/
theorem zscore_eq_none_of_not_mem (z : ZSet) (u : String)
    (h : u ∉ z.map Prod.fst) : zscore z u = none := by
  unfold zscore
  rw [List.find?_eq_none.2]
  · rfl
  · intro e he
    simp only [Bool.not_eq_true, beq_eq_false_iff_ne, ne_eq]
    intro hc
    exact h (hc ▸ List.mem_map_of_mem Prod.fst he)

/-- A member outside the sorted set has no descending rank. -/
theorem zrevrank_eq_none_of_not_mem (z : ZSet) (u : String)
    (h : u ∉ z.map Prod.fst) : zrevrank z u = none := by
  unfold zrevrank
  apply List.findIdx?_eq_none_iff.mpr
  intro e he
  simp only [beq_eq_false_iff_ne, ne_eq]
  intro hc
  have hmem : e ∈ z := (List.perm_insertionSort revOrder z).mem_iff.1 he
  exact h (hc ▸ List.mem_map_of_mem Prod.fst hmem)

/--
C8: for every RankOf query where the user is not a member of the
leaderboard's sorted set, the handler succeeds with HTTP 200 and reports
rank = null and score = null.
-/
theorem claim_c8_missing_member_nulls (z : ZSet) (u : String)
    (h : u ∉ z.map Prod.fst) :
    rankHandler z u = { status := 200, rank := none, score := none } := by
  unfold rankHandler
  rw [zscore_eq_none_of_not_mem z u h, zrevrank_eq_none_of_not_mem z u h]

/--
C8 witness: the missing-member theorem applied to a concrete sorted set not
containing the queried user.
-/
theorem claim_c8_witness :
    ("bob" ∉ ([("alice", (7 : Rat))] : ZSet).map Prod.fst) ∧
    rankHandler [("alice", (7 : Rat))] "bob" =
      { status := 200, rank := none, score := none } :=
  ⟨by decide, claim_c8_missing_member_nulls [("alice", (7 : Rat))] "bob" (by decide)⟩

/-- One entry of the `GET /:id/top` response. -/
structure TopEntry where
  rank : Nat
  userId : String
  score : Rat
deriving DecidableEq

/-- `ZREVRANGE key start stop` (inclusive bounds), scores descending. -/
def zrevrange (z : ZSet) (start stop : Nat) : List (String × Rat) :=
  ((sortDesc z).drop start).take (stop + 1 - start)

/--
The entry-building loop of the top handler: element `i` of the page becomes
`{rank: offset + i + 1, userId, score}`.
-/
def rankEntries (offset : Nat) : List (String × Rat) → List TopEntry
  | [] => []
  | e :: es => ⟨offset + 1, e.1, e.2⟩ :: rankEntries (offset + 1) es

/-- The `GET /:id/top` response fields the claim is about. -/
structure TopResponse where
  entries : List TopEntry
  total : Nat
deriving DecidableEq

/--
The top handler in `apps/scores-service/src/routes/leaderboards.ts`:
`ZREVRANGE key offset (offset+limit-1) WITHSCORES` (the metadata sortOrder is
never consulted), `ZCARD` for the total, ranks `offset + i + 1`.
-/
def topHandler (z : ZSet) (limit offset : Nat) : TopResponse :=
  { entries := rankEntries offset (zrevrange z offset (offset + limit - 1))
    total := z.length }

/--
The ordering the claim asserts for the entries of a Top response: scores
non-increasing when the leaderboard's sortOrder is desc, non-decreasing when
it is asc.
-/
def orderedBySortOrder (so : SortOrder) (es : List TopEntry) : Prop :=
  match so with
  | .desc => es.Pairwise (fun a b => b.score ≤ a.score)
  | .asc => es.Pairwise (fun a b => a.score ≤ b.score)

instance (so : SortOrder) (es : List TopEntry) : Decidable (orderedBySortOrder so es) := by
  cases so <;> (unfold orderedBySortOrder; infer_instance)

/-- The scores of the ranked entries are the scores of the page, in order. -/
theorem scores_rankEntries (offset : Nat) (l : List (String × Rat)) :
    (rankEntries offset l).map (fun e => e.score) = l.map (fun p => p.2) := by
  induction l generalizing offset with
  | nil => rfl
  | cons e es ih => simp [rankEntries, ih]

/-- The ranks of the ranked entries count up from `offset + 1`. -/
theorem ranks_rankEntries (offset : Nat) (l : List (String × Rat)) :
    (rankEntries offset l).map (fun e => e.rank) = List.range' (offset + 1) l.length := by
  induction l generalizing offset with
  | nil => rfl
  | cons e es ih => simp [rankEntries, ih, List.range']

/--
C3 counterexample: for a leaderboard whose metadata sortOrder is asc, the Top
query still returns the entries in descending score order — here
`[{rank 1, bob, 5}, {rank 2, alice, 3}]` — which is not ordered by the
leaderboard's sortOrder as the claim requires.
-/
theorem claim_c3_counterexample :
    effSortOrder { sortOrder := some SortOrder.asc } = SortOrder.asc ∧
    (topHandler [("alice", (3 : Rat)), ("bob", (5 : Rat))] 10 0).entries =
      [⟨1, "bob", 5⟩, ⟨2, "alice", 3⟩] ∧
    ¬ orderedBySortOrder (effSortOrder { sortOrder := some SortOrder.asc })
      (topHandler [("alice", (3 : Rat)), ("bob", (5 : Rat))] 10 0).entries := by
  refine ⟨rfl, by decide, by decide⟩

/--
C3 (amended): for every leaderboard and every Top(limit, offset) query, the
returned entries are in non-increasing score order regardless of the
leaderboard's sortOrder (the handler always uses ZREVRANGE), and the returned
ranks are 1-based and continuous starting at offset+1.
-/
theorem claim_c3_amended_top_order_and_ranks (z : ZSet) (limit offset : Nat) :
    orderedBySortOrder SortOrder.desc (topHandler z limit offset).entries ∧
    (topHandler z limit offset).entries.map (fun e => e.rank) =
      List.range' (offset + 1) (topHandler z limit offset).entries.length := by
  constructor
  · show ((topHandler z limit offset).entries).Pairwise (fun a b => b.score ≤ a.score)
    have hsorted : (sortDesc z).Pairwise revOrder :=
      List.sorted_insertionSort revOrder z
    have hpage : (zrevrange z offset (offset + limit - 1)).Pairwise revOrder := by
      apply List.Pairwise.sublist _ hsorted
      exact ((List.take_sublist _ _).trans (List.drop_sublist _ _))
    have hmap : ((zrevrange z offset (offset + limit - 1)).map
        (fun p => p.2)).Pairwise (fun s t => t ≤ s) :=
      List.pairwise_map.2 hpage
    rw [← scores_rankEntries offset] at hmap
    exact List.pairwise_map.1 hmap
  · show (rankEntries offset (zrevrange z offset (offset + limit - 1))).map
        (fun e => e.rank) = _
    rw [ranks_rankEntries]
    congr 1
    have : (rankEntries offset (zrevrange z offset (offset + limit - 1))).map
        (fun e => e.score) = (zrevrange z offset (offset + limit - 1)).map
        (fun p => p.2) := scores_rankEntries _ _
    have hlen := congrArg List.length this
    simpa using hlen.symm

/-- One element of a `POST /batch-update` request body. -/
structure BatchUpdateItem where
  leaderboardId : String
  userId : String
  score : Rat
  increment : Bool := false
deriving DecidableEq

/-- A command queued on the Redis pipeline by the batch handler. -/
inductive PipeCmd where
  | zincrby (lb : String) (score : Rat) (member : String)
  | zadd (lb : String) (score : Rat) (member : String)
  | expire (lb : String) (secs : Nat)
deriving DecidableEq

/-- One element of the batch response's `results` array. -/
structure BatchResult where
  userId : String
  leaderboardId : String
  success : Bool
deriving DecidableEq

/-- The fields of a published `score.updated` event the batch path controls. -/
structure PublishedScoreEvent where
  leaderboardId : String
  userId : String
  score : Rat
  increment : Bool
deriving DecidableEq

/-- The `POST /batch-update` response together with the pipelined commands and events. -/
structure BatchResponse where
  success : Bool
  processed : Nat
  results : List BatchResult
  commands : List PipeCmd
  events : List PublishedScoreEvent
deriving DecidableEq

/-- The key of the pre-read current-score map: `leaderboardId:userId`. -/
def bestKey (lb u : String) : String := lb ++ ":" ++ u

/--
The pipeline commands one batch entry contributes: ZINCRBY under effective
increment mode, ZADD under replace, a conditional ZADD (possibly nothing)
under best mode against the pre-read score map, plus an EXPIRE when the
leaderboard has a positive ttlDays.
-/
def batchCommands (m : MetaHash) (curr : List (String × Rat))
    (u : BatchUpdateItem) : List PipeCmd :=
  (if effUpdateMode m = .increment ∨ u.increment = true then
    [PipeCmd.zincrby u.leaderboardId u.score u.userId]
   else if effUpdateMode m = .best then
     match List.lookup (bestKey u.leaderboardId u.userId) curr with
     | none => [PipeCmd.zadd u.leaderboardId u.score u.userId]
     | some c =>
       if (if effSortOrder m = .desc then c < u.score else u.score < c) then
         [PipeCmd.zadd u.leaderboardId u.score u.userId]
       else []
   else [PipeCmd.zadd u.leaderboardId u.score u.userId])
  ++ (if effTtlDays m > 0 then
        [PipeCmd.expire u.leaderboardId (effTtlDays m * 24 * 60 * 60)]
      else [])

/--
The per-update loop of the batch handler. An update whose leaderboard is
missing from the fetched metadata map is skipped entirely (`if (!lbMeta)
continue`); otherwise the loop queues commands, records `{userId,
leaderboardId, success: true}`, and publishes an event carrying the submitted
score and increment flag.
-/
def batchLoop (metas : List (String × MetaHash)) (curr : List (String × Rat)) :
    List BatchUpdateItem → List BatchResult × List PipeCmd × List PublishedScoreEvent
  | [] => ([], [], [])
  | u :: rest =>
    let tail := batchLoop metas curr rest
    match List.lookup u.leaderboardId metas with
    | none => tail
    | some m =>
      (⟨u.userId, u.leaderboardId, true⟩ :: tail.1,
        batchCommands m curr u ++ tail.2.1,
        ⟨u.leaderboardId, u.userId, u.score, u.increment⟩ :: tail.2.2)

/--
The `POST /batch-update` handler in scores.ts: fetch metadata once per
distinct leaderboard (an absent hash reads as the empty record, so the map
covers every update's leaderboard), pre-read current scores for entries of
best-mode leaderboards, then run the loop and answer `{success: true,
processed: updates.length, results}`.
-/
def batchUpdate (metaOf : String → MetaHash) (zOf : String → ZSet)
    (updates : List BatchUpdateItem) : BatchResponse :=
  let uniqueLbs := (updates.map (fun u => u.leaderboardId)).dedup
  let metas := uniqueLbs.map (fun l => (l, metaOf l))
  let curr := updates.filterMap (fun u =>
    match List.lookup u.leaderboardId metas with
    | some m =>
      if effUpdateMode m = .best then
        (zscore (zOf u.leaderboardId) u.userId).map
          (fun c => (bestKey u.leaderboardId u.userId, c))
      else none
    | none => none)
  { success := true
    processed := updates.length
    results := (batchLoop metas curr updates).1
    commands := (batchLoop metas curr updates).2.1
    events := (batchLoop metas curr updates).2.2 }

/-- Looking up a key of the map-built association list succeeds. -/
theorem lookup_map_pair (f : String → MetaHash) :
    ∀ (ls : List String) (a : String), a ∈ ls →
      List.lookup a (ls.map (fun l => (l, f l))) = some (f a) := by
  intro ls
  induction ls with
  | nil => intro a ha; cases ha
  | cons b bs ih =>
    intro a ha
    by_cases hab : a = b
    · simp [List.lookup, hab]
    · have : a ∈ bs := by
        cases ha with
        | head => exact absurd rfl hab
        | tail _ h => exact h
      simp only [List.map_cons, List.lookup]
      have hbeq : (a == b) = false := by simpa using hab
      rw [hbeq]
      exact ih a this

/-- When the metadata map covers every update, the loop records one successful result per update, in order. -/
theorem batchLoop_results (metas : List (String × MetaHash))
    (curr : List (String × Rat)) :
    ∀ updates : List BatchUpdateItem,
      (∀ u ∈ updates, (List.lookup u.leaderboardId metas).isSome) →
      (batchLoop metas curr updates).1 =
        updates.map (fun u => ⟨u.userId, u.leaderboardId, true⟩) := by
  intro updates
  induction updates with
  | nil => intro _; rfl
  | cons u rest ih =>
    intro h
    have hu := h u (List.mem_cons_self u rest)
    have hrest : ∀ v ∈ rest, (List.lookup v.leaderboardId metas).isSome :=
      fun v hv => h v (List.mem_cons_of_mem u hv)
    cases hm : List.lookup u.leaderboardId metas with
    | none => rw [hm] at hu; simp at hu
    | some m =>
      simp only [batchLoop, hm, List.map_cons]
      rw [ih hrest]

/--
C9: for every BatchUpdateScore request whose pipelined transaction executes,
the response reports `processed` equal to the number of submitted updates and
`success: true` for every individual entry — one result per update in order —
even for entries whose write was skipped (a best-mode update whose score is
not better contributes no pipeline command, but still a successful result).
-/
theorem claim_c9_batch_reports_success (metaOf : String → MetaHash)
    (zOf : String → ZSet) (updates : List BatchUpdateItem) :
    (batchUpdate metaOf zOf updates).processed = updates.length ∧
    (batchUpdate metaOf zOf updates).results =
      updates.map (fun u => ⟨u.userId, u.leaderboardId, true⟩) ∧
    ∀ r ∈ (batchUpdate metaOf zOf updates).results, r.success = true := by
  have hcov : ∀ u ∈ updates,
      (List.lookup u.leaderboardId
        (((updates.map (fun u => u.leaderboardId)).dedup).map
          (fun l => (l, metaOf l)))).isSome := by
    intro u hu
    rw [lookup_map_pair metaOf _ _
      (List.mem_dedup.2 (List.mem_map_of_mem (fun u => u.leaderboardId) hu))]
    rfl
  have hres : (batchUpdate metaOf zOf updates).results =
      updates.map (fun u => ⟨u.userId, u.leaderboardId, true⟩) :=
    batchLoop_results _ _ updates hcov
  refine ⟨rfl, hres, ?_⟩
  intro r hr
  rw [hres] at hr
  rcases List.mem_map.1 hr with ⟨u, _, hu⟩
  rw [← hu]

/-- A row of the `api_keys` table joined with its project's tenant, as the validate route selects it. -/
structure ApiKeyRow where
  id : String
  keyHash : String
  projectId : String
  tenantId : String
  revokedAt : Option String := none
deriving DecidableEq

/-- The body of the auth service's validate response. -/
structure ValidateResult where
  valid : Bool
  tenantId : Option String := none
  projectId : Option String := none
  planType : Option String := none
deriving DecidableEq

/--
`POST /validate` in `apps/auth-service/src/routes/validate.ts`: iterate the
keys in order, skip revoked rows, and return on the first row whose hash the
submitted plaintext verifies against, with the row's tenant and project and
the tenant's active subscription plan — defaulting to "free" when the tenant
has no active subscription. `verify` abstracts `verifyApiKey` (bcrypt-style
hash verification) and `activePlan` the active-subscription plan query.
-/
def validateApiKey (verify : String → String → Bool) (keys : List ApiKeyRow)
    (activePlan : String → Option String) (apiKey : String) : ValidateResult :=
  match keys.find? (fun k => k.revokedAt == none && verify apiKey k.keyHash) with
  | some k =>
    { valid := true
      tenantId := some k.tenantId
      projectId := some k.projectId
      planType := some ((activePlan k.tenantId).getD "free") }
  | none => { valid := false }

/--
C10: for every API key that verifies against some non-revoked stored hash,
ValidateApiKey returns `valid: true` with that key row's tenantId and
projectId (the first matching row), and when that tenant has no active
subscription the planType is "free" rather than missing.
-/
theorem claim_c10_validate_returns_context (verify : String → String → Bool)
    (keys : List ApiKeyRow) (activePlan : String → Option String) (apiKey : String)
    (h : ∃ k ∈ keys, k.revokedAt = none ∧ verify apiKey k.keyHash = true) :
    (validateApiKey verify keys activePlan apiKey).valid = true ∧
    ∃ k ∈ keys, k.revokedAt = none ∧ verify apiKey k.keyHash = true ∧
      (validateApiKey verify keys activePlan apiKey).tenantId = some k.tenantId ∧
      (validateApiKey verify keys activePlan apiKey).projectId = some k.projectId ∧
      (activePlan k.tenantId = none →
        (validateApiKey verify keys activePlan apiKey).planType = some "free") := by
  have hsome : (keys.find?
      (fun k => k.revokedAt == none && verify apiKey k.keyHash)).isSome := by
    rw [List.find?_isSome]
    rcases h with ⟨k, hk, h1, h2⟩
    exact ⟨k, hk, by simp [h1, h2]⟩
  cases hf : keys.find? (fun k => k.revokedAt == none && verify apiKey k.keyHash) with
  | none => rw [hf] at hsome; simp at hsome
  | some k =>
    have hp := List.find?_some hf
    have hmem := List.mem_of_find?_eq_some hf
    have hp2 : (k.revokedAt == none) = true ∧ verify apiKey k.keyHash = true := by
      simpa [Bool.and_eq_true] using hp
    have hrev : k.revokedAt = none := by simpa using hp2.1
    have hver : verify apiKey k.keyHash = true := hp2.2
    unfold validateApiKey
    rw [hf]
    refine ⟨rfl, k, hmem, hrev, hver, rfl, rfl, ?_⟩
    intro hplan
    simp [hplan]

/--
C10 witness: the validate theorem applied to a concrete key table where the
submitted plaintext verifies against the only (non-revoked) row and the
tenant has no active subscription.
-/
theorem claim_c10_witness :
    (∃ k ∈ [ApiKeyRow.mk "id1" "hash1" "p1" "t1" none],
      k.revokedAt = none ∧ (fun p h => p == h) "hash1" k.keyHash = true) ∧
    (validateApiKey (fun p h => p == h) [ApiKeyRow.mk "id1" "hash1" "p1" "t1" none]
      (fun _ => none) "hash1").valid = true ∧
    ∃ k ∈ [ApiKeyRow.mk "id1" "hash1" "p1" "t1" none],
      k.revokedAt = none ∧ (fun p h => p == h) "hash1" k.keyHash = true ∧
      (validateApiKey (fun p h => p == h) [ApiKeyRow.mk "id1" "hash1" "p1" "t1" none]
        (fun _ => none) "hash1").tenantId = some k.tenantId ∧
      (validateApiKey (fun p h => p == h) [ApiKeyRow.mk "id1" "hash1" "p1" "t1" none]
        (fun _ => none) "hash1").projectId = some k.projectId ∧
      ((fun _ => (none : Option String)) k.tenantId = none →
        (validateApiKey (fun p h => p == h) [ApiKeyRow.mk "id1" "hash1" "p1" "t1" none]
          (fun _ => none) "hash1").planType = some "free") :=
  ⟨by decide, claim_c10_validate_returns_context (fun p h => p == h)
    [ApiKeyRow.mk "id1" "hash1" "p1" "t1" none] (fun _ => none) "hash1" (by decide)⟩

/-- A per-plan token bucket configuration (`TokenBucketConfig` in rate-limit.ts). -/
structure TokenBucketConfig where
  capacity : Rat
  refillRate : Rat
  cost : Option Rat := none
deriving DecidableEq

/--
`PLAN_RATE_LIMITS` in `apps/gateway/src/middleware/rate-limit.ts`, including
the `PLAN_RATE_LIMITS[planType] || PLAN_RATE_LIMITS.free` fallback for
unknown plans. No plan sets `cost`, so `config.cost || 1` resolves to 1.
-/
def PLAN_RATE_LIMITS (plan : String) : TokenBucketConfig :=
  if plan = "free" then ⟨10, 1, none⟩
  else if plan = "pro" then ⟨100, 50, none⟩
  else if plan = "enterprise" then ⟨500, 200, none⟩
  else ⟨10, 1, none⟩

/-- `const cost = config.cost || 1`. -/
def rlCost (cfg : TokenBucketConfig) : Rat := cfg.cost.getD 1

/-- The bucket hash `{tokens, last_refill}` stored under the rate-limit key. -/
structure Bucket where
  tokens : Rat
  lastRefill : Int
deriving DecidableEq

/-- What one execution of the Lua script produces: the verdict, the bucket written back, and the EXPIRE applied. -/
structure RLStepResult where
  allowed : Bool
  bucket : Bucket
  ttlSecs : Nat
deriving DecidableEq

/--
The refill computation of the Lua script: add `(now - last_refill)/1000 *
refill_rate` tokens, clamped to capacity.
-/
def refillTokens (cfg : TokenBucketConfig) (tokens : Rat) (lastRefill now : Int) : Rat :=
  min cfg.capacity (tokens + ((now - lastRefill : Int) : Rat) / 1000 * cfg.refillRate)

/--
One execution of the atomic Lua token-bucket script, with `now` in
milliseconds. A missing bucket reads as `tokens = capacity, last_refill =
now`. If the refilled tokens cover the cost, the request is allowed and the
cost subtracted; otherwise it is denied. Either way the bucket is written
back with `last_refill = now` and a 60-second EXPIRE.
-/
def rlStep (cfg : TokenBucketConfig) (st : Option Bucket) (now : Int) : RLStepResult :=
  let tokens0 := match st with | some b => b.tokens | none => cfg.capacity
  let lastRefill := match st with | some b => b.lastRefill | none => now
  let tokens1 := refillTokens cfg tokens0 lastRefill now
  if rlCost cfg ≤ tokens1 then
    { allowed := true, bucket := ⟨tokens1 - rlCost cfg, now⟩, ttlSecs := 60 }
  else
    { allowed := false, bucket := ⟨tokens1, now⟩, ttlSecs := 60 }

/-- Run the limiter from an existing bucket over a sequence of request times; returns the allowed count and the final bucket. -/
def rlRunFrom (cfg : TokenBucketConfig) (b : Bucket) : List Int → Nat × Bucket
  | [] => (0, b)
  | t :: ts =>
    let r := rlStep cfg (some b) t
    let rest := rlRunFrom cfg r.bucket ts
    ((if r.allowed then 1 else 0) + rest.1, rest.2)

/-- Run the limiter from a missing bucket (the full-bucket start) over a sequence of request times; returns the allowed count. -/
def rlRunTop (cfg : TokenBucketConfig) : List Int → Nat
  | [] => 0
  | t :: ts =>
    let r := rlStep cfg none t
    let rest := rlRunFrom cfg r.bucket ts
    (if r.allowed then 1 else 0) + rest.1

/--
The number of allowed requests the claim asserts: `min(N, floor(C + R*(tN -
t1)))` with times in milliseconds, so the elapsed time is divided by 1000.
-/
def claimedAllowedCount (cfg : TokenBucketConfig) (times : List Int) : Int :=
  match times with
  | [] => 0
  | t1 :: rest =>
    min ((times.length : Int))
      ⌊cfg.capacity + cfg.refillRate * ((rest.getLastD t1 - t1 : Int) : Rat) / 1000⌋

/--
C2 counterexample: on the free plan (capacity 10, refill 1/s), 12 requests at
times 0, 5000, 5001, ..., 5010 ms allow only 11 requests, while the claimed
closed formula gives min(12, floor(10 + 1 * 5.010)) = 12: the clamp to
capacity during the idle gap discards refill that the formula still counts.
-/
theorem claim_c2_counterexample :
    rlRunTop (PLAN_RATE_LIMITS "free")
      [0, 5000, 5001, 5002, 5003, 5004, 5005, 5006, 5007, 5008, 5009, 5010] = 11 ∧
    claimedAllowedCount (PLAN_RATE_LIMITS "free")
      [0, 5000, 5001, 5002, 5003, 5004, 5005, 5006, 5007, 5008, 5009, 5010] = 12 := by
  constructor
  · norm_num [rlRunTop, rlRunFrom, rlStep, refillTokens, rlCost, PLAN_RATE_LIMITS, min_def]
  · norm_num [claimedAllowedCount, PLAN_RATE_LIMITS, Int.floor_eq_iff, min_def]

/-- The script always writes `last_refill = now`. -/
theorem rlStep_lastRefill (cfg : TokenBucketConfig) (st : Option Bucket) (now : Int) :
    (rlStep cfg st now).bucket.lastRefill = now := by
  cases st with
  | none =>
    by_cases h : rlCost cfg ≤ refillTokens cfg cfg.capacity now now <;> simp [rlStep, h]
  | some b =>
    by_cases h : rlCost cfg ≤ refillTokens cfg b.tokens b.lastRefill now <;>
      simp [rlStep, h]

/-- The script always arms a 60-second TTL on the bucket key. -/
theorem rlStep_ttl (cfg : TokenBucketConfig) (st : Option Bucket) (now : Int) :
    (rlStep cfg st now).ttlSecs = 60 := by
  cases st with
  | none =>
    by_cases h : rlCost cfg ≤ refillTokens cfg cfg.capacity now now <;> simp [rlStep, h]
  | some b =>
    by_cases h : rlCost cfg ≤ refillTokens cfg b.tokens b.lastRefill now <;>
      simp [rlStep, h]

/-- Allowed requests consume the cost; denied requests consume nothing: the consumed cost plus the written tokens equal the refilled tokens. -/
theorem rlStep_tokens_eq (cfg : TokenBucketConfig) (b : Bucket) (now : Int) :
    (if (rlStep cfg (some b) now).allowed then rlCost cfg else 0) +
      (rlStep cfg (some b) now).bucket.tokens =
    refillTokens cfg b.tokens b.lastRefill now := by
  by_cases h : rlCost cfg ≤ refillTokens cfg b.tokens b.lastRefill now
  · simp only [rlStep, if_pos h, if_true, ite_true]
    ring
  · simp only [rlStep, if_neg h]
    simp

/-- The written token count never goes negative. -/
theorem rlStep_tokens_nonneg (cfg : TokenBucketConfig) (b : Bucket) (now : Int)
    (hcap : 0 ≤ cfg.capacity) (hR : 0 ≤ cfg.refillRate)
    (hlast : b.lastRefill ≤ now) (htok : 0 ≤ b.tokens) :
    0 ≤ (rlStep cfg (some b) now).bucket.tokens := by
  have hrefill : 0 ≤ refillTokens cfg b.tokens b.lastRefill now := by
    apply le_min hcap
    have helapsed : (0 : Rat) ≤ ((now - b.lastRefill : Int) : Rat) / 1000 := by
      apply div_nonneg _ (by norm_num)
      exact_mod_cast Int.sub_nonneg.2 hlast
    positivity
  unfold rlStep
  by_cases h : rlCost cfg ≤ refillTokens cfg b.tokens b.lastRefill now
  · simp only [if_pos h]
    show 0 ≤ refillTokens cfg b.tokens b.lastRefill now - rlCost cfg
    linarith
  · simp only [if_neg h]
    exact hrefill

/-- The refilled tokens never exceed the unclamped refill. -/
theorem refillTokens_le (cfg : TokenBucketConfig) (tokens : Rat) (lastRefill now : Int) :
    refillTokens cfg tokens lastRefill now ≤
      tokens + ((now - lastRefill : Int) : Rat) / 1000 * cfg.refillRate :=
  min_le_right _ _

/-- The allowed count of a run is at most the number of requests. -/
theorem rlRunFrom_le_length (cfg : TokenBucketConfig) :
    ∀ (ts : List Int) (b : Bucket), (rlRunFrom cfg b ts).1 ≤ ts.length := by
  intro ts
  induction ts with
  | nil => intro b; exact Nat.le_refl 0
  | cons t ts ih =>
    intro b
    show (if (rlStep cfg (some b) t).allowed then 1 else 0) +
      (rlRunFrom cfg (rlStep cfg (some b) t).bucket ts).1 ≤ ts.length + 1
    have h1 : (if (rlStep cfg (some b) t).allowed then 1 else 0) ≤ 1 := by
      split <;> omega
    have h2 := ih (rlStep cfg (some b) t).bucket
    omega

/--
Run invariant: starting from a nonnegative bucket and non-decreasing request
times at or after its last refill, the bucket stays nonnegative, its last
refill ends at the last request time, and the allowed count plus the leftover
tokens never exceed the starting tokens plus the total unclamped refill over
the elapsed interval.
-/
theorem rlRunFrom_invariant (cfg : TokenBucketConfig)
    (hcap : 0 ≤ cfg.capacity) (hR : 0 ≤ cfg.refillRate) (hcost : cfg.cost = none) :
    ∀ (ts : List Int) (b : Bucket), 0 ≤ b.tokens →
      List.Chain (fun x y => x ≤ y) b.lastRefill ts →
      0 ≤ (rlRunFrom cfg b ts).2.tokens ∧
      (rlRunFrom cfg b ts).2.lastRefill = ts.getLastD b.lastRefill ∧
      ((rlRunFrom cfg b ts).1 : Rat) + (rlRunFrom cfg b ts).2.tokens ≤
        b.tokens + cfg.refillRate *
          (((rlRunFrom cfg b ts).2.lastRefill - b.lastRefill : Int) : Rat) / 1000 := by
  intro ts
  induction ts with
  | nil =>
    intro b htok _
    refine ⟨htok, rfl, ?_⟩
    simp [rlRunFrom]
  | cons t ts ih =>
    intro b htok hchain
    have hbt : b.lastRefill ≤ t := (List.chain_cons.1 hchain).1
    have hchain2 : List.Chain (fun x y => x ≤ y) t ts := (List.chain_cons.1 hchain).2
    set r := rlStep cfg (some b) t with hr
    have hrlast : r.bucket.lastRefill = t := rlStep_lastRefill cfg (some b) t
    have hrtok : 0 ≤ r.bucket.tokens :=
      rlStep_tokens_nonneg cfg b t hcap hR hbt htok
    have hchain3 : List.Chain (fun x y => x ≤ y) r.bucket.lastRefill ts := by
      rw [hrlast]; exact hchain2
    obtain ⟨ih1, ih2, ih3⟩ := ih r.bucket hrtok hchain3
    have hstep : (if r.allowed then rlCost cfg else 0) + r.bucket.tokens =
        refillTokens cfg b.tokens b.lastRefill t := rlStep_tokens_eq cfg b t
    have hcost1 : rlCost cfg = 1 := by rw [rlCost, hcost]; rfl
    have hrun : rlRunFrom cfg b (t :: ts) =
        ((if r.allowed then 1 else 0) + (rlRunFrom cfg r.bucket ts).1,
          (rlRunFrom cfg r.bucket ts).2) := rfl
    rw [hrun]
    refine ⟨ih1, ?_, ?_⟩
    · show (rlRunFrom cfg r.bucket ts).2.lastRefill = (t :: ts).getLastD b.lastRefill
      rw [ih2, hrlast, List.getLastD_cons]
    · rw [hcost1] at hstep
      have hmid : refillTokens cfg b.tokens b.lastRefill t ≤
          b.tokens + ((t - b.lastRefill : Int) : Rat) / 1000 * cfg.refillRate :=
        refillTokens_le cfg b.tokens b.lastRefill t
      rw [ih2, hrlast] at ih3 ⊢
      push_cast at ih3 hstep hmid ⊢
      ring_nf at ih3 hstep hmid ⊢
      linarith

/--
C2 (amended): the per-plan parameters are free: capacity 10, refill 1/s;
pro: 100, 50/s; enterprise: 500, 200/s; each bucket update reads
`(tokens, last_refill)`, adds `(now - lastRefill)/1000 * refillRate` tokens
clamped to capacity, allows and subtracts cost = 1 when the tokens cover the
cost and otherwise denies, and writes the bucket back with TTL 60 seconds;
consequently, starting from a full (missing) bucket, N requests at strictly
increasing times allow AT MOST `min(N, floor(C + R*(tN - t1)))` — the exact
equality claimed does not hold, because the clamp discards refill
accumulated beyond capacity (see the counterexample).
-/
theorem claim_c2_amended_rate_limit :
    (PLAN_RATE_LIMITS "free" = ⟨10, 1, none⟩ ∧
      PLAN_RATE_LIMITS "pro" = ⟨100, 50, none⟩ ∧
      PLAN_RATE_LIMITS "enterprise" = ⟨500, 200, none⟩) ∧
    (∀ (cfg : TokenBucketConfig) (b : Bucket) (now : Int),
      rlStep cfg (some b) now =
        if rlCost cfg ≤ refillTokens cfg b.tokens b.lastRefill now then
          ⟨true, ⟨refillTokens cfg b.tokens b.lastRefill now - rlCost cfg, now⟩, 60⟩
        else ⟨false, ⟨refillTokens cfg b.tokens b.lastRefill now, now⟩, 60⟩) ∧
    (∀ (cfg : TokenBucketConfig) (t1 : Int) (rest : List Int),
      0 ≤ cfg.capacity → 0 ≤ cfg.refillRate → cfg.cost = none →
      List.Chain (fun x y => x < y) t1 rest →
      (rlRunTop cfg (t1 :: rest) : Int) ≤ claimedAllowedCount cfg (t1 :: rest)) := by
  refine ⟨⟨rfl, rfl, rfl⟩, ?_, ?_⟩
  · intro cfg b now
    by_cases h : rlCost cfg ≤ refillTokens cfg b.tokens b.lastRefill now <;>
      simp [rlStep, h]
  · intro cfg t1 rest hcap hR hcost hchain
    have hrw : rlRunTop cfg (t1 :: rest) =
        (rlRunFrom cfg (⟨cfg.capacity, t1⟩ : Bucket) (t1 :: rest)).1 := rfl
    have hchainle : List.Chain (fun x y => x ≤ y) t1 (t1 :: rest) :=
      List.chain_cons.2 ⟨le_refl t1, hchain.imp (fun _ _ h => le_of_lt h)⟩
    obtain ⟨h1, h2, h3⟩ := rlRunFrom_invariant cfg hcap hR hcost (t1 :: rest)
      ⟨cfg.capacity, t1⟩ hcap hchainle
    have hlast : (rlRunFrom cfg (⟨cfg.capacity, t1⟩ : Bucket) (t1 :: rest)).2.lastRefill =
        rest.getLastD t1 := by
      rw [h2]
      exact List.getLastD_cons t1 t1 rest
    have hcount : ((rlRunFrom cfg (⟨cfg.capacity, t1⟩ : Bucket) (t1 :: rest)).1 : Rat) ≤
        cfg.capacity + cfg.refillRate * ((rest.getLastD t1 - t1 : Int) : Rat) / 1000 := by
      rw [hlast] at h3
      calc ((rlRunFrom cfg (⟨cfg.capacity, t1⟩ : Bucket) (t1 :: rest)).1 : Rat)
          ≤ ((rlRunFrom cfg (⟨cfg.capacity, t1⟩ : Bucket) (t1 :: rest)).1 : Rat) +
            (rlRunFrom cfg (⟨cfg.capacity, t1⟩ : Bucket) (t1 :: rest)).2.tokens := by
            linarith
        _ ≤ _ := h3
    have hfloor : ((rlRunTop cfg (t1 :: rest) : Int)) ≤
        ⌊cfg.capacity + cfg.refillRate * ((rest.getLastD t1 - t1 : Int) : Rat) / 1000⌋ := by
      rw [Int.le_floor, hrw]
      push_cast
      exact_mod_cast hcount
    have hlen : ((rlRunTop cfg (t1 :: rest) : Int)) ≤ ((t1 :: rest).length : Int) := by
      rw [hrw]
      exact_mod_cast rlRunFrom_le_length cfg (t1 :: rest) ⟨cfg.capacity, t1⟩
    show (rlRunTop cfg (t1 :: rest) : Int) ≤
      min (((t1 :: rest).length : Int))
        ⌊cfg.capacity + cfg.refillRate * ((rest.getLastD t1 - t1 : Int) : Rat) / 1000⌋
    exact le_min hlen hfloor

/--
C2 witness: the amended rate-limit theorem applied to the free plan and two
requests at times 0 ms and 1000 ms.
-/
theorem claim_c2_witness :
    (0 ≤ (PLAN_RATE_LIMITS "free").capacity ∧ 0 ≤ (PLAN_RATE_LIMITS "free").refillRate ∧
      (PLAN_RATE_LIMITS "free").cost = none ∧
      List.Chain (fun x y => x < y) 0 [1000]) ∧
    (rlRunTop (PLAN_RATE_LIMITS "free") [0, 1000] : Int) ≤
      claimedAllowedCount (PLAN_RATE_LIMITS "free") [0, 1000] :=
  ⟨⟨by norm_num [PLAN_RATE_LIMITS], by norm_num [PLAN_RATE_LIMITS],
      rfl, List.chain_cons.2 ⟨by norm_num, List.Chain.nil⟩⟩,
    claim_c2_amended_rate_limit.2.2 (PLAN_RATE_LIMITS "free") 0 [1000]
      (by norm_num [PLAN_RATE_LIMITS]) (by norm_num [PLAN_RATE_LIMITS]) rfl
      (List.chain_cons.2 ⟨by norm_num, List.Chain.nil⟩)⟩

end Ascend
